import Mathlib

/-!
# Git-Lite snapshot versioning engine — shallow embedding

A shallow embedding of the "Git-Lite" backend (`backend/src/server.js`,
Node + Express + Supabase).  The relational store (tables `repositories`,
`branches`, `commits`, `file_versions`, `commit_files`, `files`) is modelled
as lists of row records inside one `DB` state; each HTTP handler becomes a
pure function from a `DB` (plus its request parameters) to a result and a
new `DB`.

Modelling conventions, all taken from the source:
* `uuidv4()` is modelled by a fresh-id counter `DB.nextId`; each call returns
  the counter and bumps it.  Nothing in the code compares uuids other than
  by equality, so any fresh-id supply is faithful.
* `.single()` / `.maybeSingle()` queries become `List.find?` over the row
  list with the query's `.eq` filters as the predicate.
* Supabase calls are network calls that can fail at runtime; the commit
  handler's behaviour on such failures is modelled by an explicit failure
  oracle `StoreFail` saying which insert (if any) rejects.  A failed insert
  statement inserts nothing (per-statement atomicity of the backing store),
  the thrown error is caught by the handler's `catch` and reported as a
  500 Internal response, and — exactly as in the source, which has no
  transaction — earlier completed inserts are NOT rolled back.
* JavaScript `x || d` defaulting on request strings is `orDefault`.
* The SHA-256 short hash `generateSha` is abstracted as a plain string map;
  no property below depends on the digest's value, only on its being stored.
-/

/-- Row of table `repositories` (columns used by the handlers). -/
structure RepoRow where
  id : Nat
  ownerId : String
  name : String
deriving Repr, DecidableEq

/-- Row of table `branches`. -/
structure BranchRow where
  id : Nat
  repoId : Nat
  name : String
  headCommitId : Option Nat
deriving Repr, DecidableEq

/-- Row of table `commits`. -/
structure CommitRow where
  id : Nat
  repoId : Nat
  branchId : Nat
  parentId : Option Nat
  sha : String
  message : String
  authorName : String
  authorEmail : String
  createdAt : String
deriving Repr, DecidableEq

/-- Row of table `file_versions` (immutable per-commit snapshots). -/
structure FileVersionRow where
  id : Nat
  repoId : Nat
  filepath : String
  content : String
deriving Repr, DecidableEq

/-- Row of join table `commit_files`. -/
structure CommitFileRow where
  commitId : Nat
  fileVersionId : Nat
deriving Repr, DecidableEq

/-- Row of table `files` (the mutable working tree), unique on
`(repo_id, filepath)`. -/
structure FileRow where
  repoId : Nat
  filepath : String
  content : String
deriving Repr, DecidableEq

/-- The whole backing store, plus the fresh-id counter modelling `uuidv4`. -/
structure DB where
  repositories : List RepoRow
  branches : List BranchRow
  commits : List CommitRow
  fileVersions : List FileVersionRow
  commitFiles : List CommitFileRow
  files : List FileRow
  nextId : Nat
deriving Repr, DecidableEq

/-- `supabase.from('repositories').select('id').eq('name', repo)
.eq('owner_id', owner_id).single()`. -/
def findRepo (db : DB) (name ownerId : String) : Option RepoRow :=
  db.repositories.find? (fun r => r.name == name && r.ownerId == ownerId)

/-- `supabase.from('branches').select(...).eq('repo_id', rid)
.eq('name', name).single()`. -/
def findBranch (db : DB) (rid : Nat) (name : String) : Option BranchRow :=
  db.branches.find? (fun b => b.repoId == rid && b.name == name)

/-- `supabase.from('commits').select('*').eq('id', cid).single()`. -/
def findCommit (db : DB) (cid : Nat) : Option CommitRow :=
  db.commits.find? (fun c => c.id == cid)

/-- `supabase.from('files').select(...).eq('repo_id', rid)`:
the current working tree of repository `rid`. -/
def filesOf (db : DB) (rid : Nat) : List FileRow :=
  db.files.filter (fun f => f.repoId == rid)

/-- JavaScript string defaulting `s || d` (empty string is falsy). -/
def orDefault (s d : String) : String :=
  if s = "" then d else s

/-- `generateSha(content)`: SHA-256 hex digest truncated to 7 chars in the
source.  Abstracted as a plain string map: no claim below inspects the
digest's value, only that a sha string is computed from
`message + timestamp` and stored. -/
def generateSha (content : String) : String :=
  "sha:" ++ content

/-- The `currentFiles.map(f => ({id: uuidv4(), repo_id, filepath, content}))`
insert of commit step "Create Immutable Versions": one `file_versions` row
per working file, with sequentially drawn fresh ids starting at `n`. -/
def mkVersions (rid : Nat) : Nat → List FileRow → List FileVersionRow
  | _, [] => []
  | n, f :: fs =>
    { id := n, repoId := rid, filepath := f.filepath, content := f.content } ::
      mkVersions rid (n + 1) fs

/-- `supabase.from('branches').update({head_commit_id: cid}).eq('id', bid)`. -/
def updateHead (db : DB) (bid cid : Nat) : DB :=
  { db with
    branches := db.branches.map fun b =>
      if b.id == bid then { b with headCommitId := some cid } else b }

/-- Failure oracle for the commit handler's fallible inserts: which awaited
insert (if any) rejects at runtime. -/
inductive StoreFail where
  | noFail
  | failVersions
  | failLinks
deriving Repr, DecidableEq

/-- Result of `POST /api/repos/:owner/:repo/commit`. -/
inductive CommitResult where
  | ok (sha : String)
  | notFound (msg : String)
  | internal (msg : String)
deriving Repr, DecidableEq

/-- `POST /api/repos/:owner/:repo/commit` under failure oracle `fail`.
Steps exactly as in the source: resolve repo (404 if absent), resolve
branch (404 if absent), insert the commit row with
`parent_id = branch.head_commit_id`, read the working tree, if non-empty
insert one `file_versions` row per file then one `commit_files` link per
version, finally update the branch head.  A failing insert throws; the
handler's catch returns 500 leaving every already-completed insert in
place (the source wraps nothing in a transaction).  The working tree is
read after the commit insert in the source; that insert does not touch
`files`, so it is read from `db` here. -/
def commitF (fail : StoreFail) (db : DB)
    (repo ownerId branchName message name email now : String) :
    CommitResult × DB :=
  match findRepo db repo ownerId with
  | none => (.notFound "Repo not found", db)
  | some repoData =>
    match findBranch db repoData.id branchName with
    | none => (.notFound ("Branch " ++ branchName ++ " not found"), db)
    | some branchData =>
      let commitId := db.nextId
      let sha := generateSha (orDefault message "Update" ++ now)
      let newCommit : CommitRow :=
        { id := commitId, repoId := repoData.id, branchId := branchData.id,
          parentId := branchData.headCommitId, sha := sha,
          message := orDefault message "Update",
          authorName := orDefault name "User",
          authorEmail := orDefault email "user@example.com",
          createdAt := now }
      let db1 : DB :=
        { db with commits := db.commits ++ [newCommit], nextId := db.nextId + 1 }
      let currentFiles := filesOf db repoData.id
      if currentFiles.isEmpty then
        (.ok sha, updateHead db1 branchData.id commitId)
      else
        match fail with
        | .failVersions => (.internal "insert file_versions failed", db1)
        | _ =>
          let versions := mkVersions repoData.id db1.nextId currentFiles
          let db2 : DB :=
            { db1 with fileVersions := db1.fileVersions ++ versions,
                       nextId := db1.nextId + versions.length }
          match fail with
          | .failLinks => (.internal "insert commit_files failed", db2)
          | _ =>
            let links := versions.map fun v =>
              ({ commitId := commitId, fileVersionId := v.id } : CommitFileRow)
            let db3 : DB := { db2 with commitFiles := db2.commitFiles ++ links }
            (.ok sha, updateHead db3 branchData.id commitId)

/-- The commit handler on the failure-free path. -/
def commit (db : DB) (repo ownerId branchName message name email now : String) :
    CommitResult × DB :=
  commitF .noFail db repo ownerId branchName message name email now

/-- Result of `POST /api/repos/:owner/:repo/checkout`. -/
inductive CheckoutResult where
  | ok (ref : String)
  | notFound (msg : String)
deriving Repr, DecidableEq

/-- One row of the batched
`supabase.from('files').upsert(..., {onConflict: 'repo_id, filepath'})`:
replace the row with the same `(repo_id, filepath)` key if present,
otherwise insert. -/
def upsertFile (files : List FileRow) (row : FileRow) : List FileRow :=
  if files.any (fun f => f.repoId == row.repoId && f.filepath == row.filepath) then
    files.map fun f =>
      if f.repoId == row.repoId && f.filepath == row.filepath then row else f
  else
    files ++ [row]

/-- The batched upsert of the checkout restore. -/
def upsertFiles (files : List FileRow) (rows : List FileRow) : List FileRow :=
  rows.foldl upsertFile files

/-- The checkout wipe:
`supabase.from('files').delete().eq('repo_id', repoData.id)`. -/
def wipeFiles (db : DB) (rid : Nat) : DB :=
  { db with files := db.files.filter (fun f => !(f.repoId == rid)) }

/-- The checkout restore rows: the `commit_files` links of `head`, each
joined to its `file_versions` row (the PostgREST embedded select
`file_versions ( filepath, content )` follows the foreign key, which by
FK integrity always resolves; a dangling link is modelled as dropped). -/
def restoresOf (db : DB) (rid head : Nat) : List FileRow :=
  (db.commitFiles.filter (fun cf => cf.commitId == head)).filterMap
    fun cf =>
      (db.fileVersions.find? (fun v => v.id == cf.fileVersionId)).map
        fun v =>
          ({ repoId := rid, filepath := v.filepath,
             content := v.content } : FileRow)

/-- `POST /api/repos/:owner/:repo/checkout`: resolve repo (404), resolve
branch by `ref` (404), delete every `files` row of the repo (full wipe),
then if `head_commit_id` is non-null upsert one working file per
`commit_files` link of that commit. -/
def checkout (db : DB) (repo ownerId ref : String) : CheckoutResult × DB :=
  match findRepo db repo ownerId with
  | none => (.notFound "Repo not found", db)
  | some repoData =>
    match findBranch db repoData.id ref with
    | none => (.notFound "Branch not found", db)
    | some branchData =>
      let db1 : DB := wipeFiles db repoData.id
      match branchData.headCommitId with
      | none => (.ok ref, db1)
      | some head =>
        let restores := restoresOf db1 repoData.id head
        if restores.isEmpty then (.ok ref, db1)
        else (.ok ref, { db1 with files := upsertFiles db1.files restores })

/-- Result of `POST /api/repos/:owner/:repo/branch`.  Note the handler has
no 404 path at all: a missing repo throws a TypeError (no null check on
`repoData`) which the catch turns into 500, and a missing `fromBranch` is
silently absorbed by `sourceBranch?.head_commit_id || null`. -/
inductive BranchResult where
  | ok (ref : String)
  | conflict (msg : String)
  | internal (msg : String)
deriving Repr, DecidableEq

/-- `POST /api/repos/:owner/:repo/branch`: look up the repo with NO null
check — when absent, `repoData.id` throws and the catch responds 500
Internal with the db untouched.  Otherwise read `fromBranch`'s head
(`none` both when the branch is missing and when its head is null, per
`sourceBranch?.head_commit_id || null`) and insert the new branch; the
unique constraint on `(repo_id, name)` makes the insert fail with code
23505 → 409 Conflict when the name already exists. -/
def createBranch (db : DB) (repo ownerId name fromBranch : String) :
    BranchResult × DB :=
  match findRepo db repo ownerId with
  | none =>
    (.internal "TypeError: Cannot read properties of null (reading id)", db)
  | some repoData =>
    let sourceHead := (findBranch db repoData.id fromBranch).bind
      (fun b => b.headCommitId)
    if db.branches.any (fun b => b.repoId == repoData.id && b.name == name) then
      (.conflict "Branch exists", db)
    else
      (.ok name,
        { db with
          branches := db.branches ++
            [{ id := db.nextId, repoId := repoData.id, name := name,
               headCommitId := sourceHead }],
          nextId := db.nextId + 1 })

/-- One entry of the log response (`oid`, `parent`, `commit.message`,
`commit.author.{name,email}`; the author timestamp is the commit's
`created_at` — the source's epoch-seconds conversion of the date string
is not modelled). -/
structure LogEntry where
  oid : String
  parent : Option Nat
  message : String
  authorName : String
  authorEmail : String
  createdAt : String
deriving Repr, DecidableEq

/-- Result of `GET /api/repos/:owner/:repo/log`.  As with `createBranch`,
a missing repo throws (`repoData.id` with no null check) → 500; there is
no 404 path in this handler. -/
inductive LogResult where
  | ok (log : List LogEntry)
  | internal (msg : String)
deriving Repr, DecidableEq

/-- The `for(let i=0; i<50; i++)` history walk: follow `parent_id` links
from the head, appending newest first; stop on a null id, on a commit id
that does not resolve (silently), or when the fuel (the loop bound, 50 at
the call site) runs out. -/
def logWalk (db : DB) : Nat → Option Nat → List CommitRow
  | 0, _ => []
  | _ + 1, none => []
  | fuel + 1, some cid =>
    match findCommit db cid with
    | none => []
    | some c => c :: logWalk db fuel c.parentId

/-- Projection of a commit row to its log entry. -/
def entryOf (c : CommitRow) : LogEntry :=
  { oid := c.sha, parent := c.parentId, message := c.message,
    authorName := c.authorName, authorEmail := c.authorEmail,
    createdAt := c.createdAt }

/-- `GET /api/repos/:owner/:repo/log`: resolve repo (a miss throws → 500
Internal), resolve branch; a missing branch or a null head both return
`ok` with an empty log; otherwise walk up to 50 commits from the head. -/
def logOp (db : DB) (repo ownerId branch : String) : LogResult :=
  match findRepo db repo ownerId with
  | none =>
    .internal "TypeError: Cannot read properties of null (reading id)"
  | some repoData =>
    match findBranch db repoData.id branch with
    | none => .ok []
    | some branchData =>
      match branchData.headCommitId with
      | none => .ok []
      | some head => .ok ((logWalk db 50 (some head)).map entryOf)

/-- Table-level well-formedness maintained by the store: every id was
drawn from the uuid supply (modelled: is below the counter), and the
working tree respects the unique `(repo_id, filepath)` constraint. -/
structure WF (db : DB) : Prop where
  branchIds : ∀ b ∈ db.branches, b.id < db.nextId
  commitIds : ∀ c ∈ db.commits, c.id < db.nextId
  versionIds : ∀ v ∈ db.fileVersions, v.id < db.nextId
  linkCommitIds : ∀ cf ∈ db.commitFiles, cf.commitId < db.nextId
  fileKeys : db.files.Pairwise
    (fun a b => a.repoId ≠ b.repoId ∨ a.filepath ≠ b.filepath)

/-! ## Concrete states used by counterexamples and witnesses -/

/-- A store with no repositories at all. -/
def dbEmpty : DB :=
  { repositories := [], branches := [], commits := [], fileVersions := [],
    commitFiles := [], files := [], nextId := 0 }

/-- The repository `demo` of owner `u1`. -/
def repo0 : RepoRow := { id := 0, ownerId := "u1", name := "demo" }

/-- Its freshly initialized `main` branch (head null, as after init). -/
def branchMain : BranchRow :=
  { id := 1, repoId := 0, name := "main", headCommitId := none }

/-- A store holding one initialized repository with an empty working tree. -/
def dbMain : DB :=
  { repositories := [repo0], branches := [branchMain], commits := [],
    fileVersions := [], commitFiles := [], files := [], nextId := 2 }

/-- One working file. -/
def fileA : FileRow := { repoId := 0, filepath := "a.txt", content := "hello" }

/-- The initialized repository with one working file. -/
def dbMainFile : DB := { dbMain with files := [fileA] }

/-- Commit `i` of a linear lineage: parent `i - 1`, root at `0`. -/
def chainCommit (i : Nat) : CommitRow :=
  { id := i, repoId := 0, branchId := 1,
    parentId := if i = 0 then none else some (i - 1),
    sha := "s", message := "m", authorName := "a", authorEmail := "e",
    createdAt := "t" }

/-- The commits `n - 1, …, 0` of that lineage, newest first. -/
def chainCommits : Nat → List CommitRow
  | 0 => []
  | n + 1 => chainCommit n :: chainCommits n

/-- A store whose `main` branch heads a lineage of 200 commits. -/
def dbChain : DB :=
  { repositories := [repo0],
    branches := [{ id := 200, repoId := 0, name := "main",
                   headCommitId := some 199 }],
    commits := chainCommits 200, fileVersions := [], commitFiles := [],
    files := [], nextId := 201 }

/-- The commit row the handler inserts (the literal of the
`supabase.from('commits').insert({...})` call). -/
def commitRowOf (db : DB) (repoData : RepoRow) (branchData : BranchRow)
    (message name email now : String) : CommitRow :=
  { id := db.nextId, repoId := repoData.id, branchId := branchData.id,
    parentId := branchData.headCommitId,
    sha := generateSha (orDefault message "Update" ++ now),
    message := orDefault message "Update",
    authorName := orDefault name "User",
    authorEmail := orDefault email "user@example.com",
    createdAt := now }

/-- An existing commit, used as a concrete branch head. -/
def commit7 : CommitRow :=
  { id := 7, repoId := 0, branchId := 1, parentId := none, sha := "s7",
    message := "m7", authorName := "a", authorEmail := "e", createdAt := "t" }

/-- A store whose `main` branch heads commit 7. -/
def dbMainC : DB :=
  { repositories := [repo0],
    branches := [{ id := 1, repoId := 0, name := "main",
                   headCommitId := some 7 }],
    commits := [commit7], fileVersions := [], commitFiles := [], files := [],
    nextId := 8 }

/-! ## Shared helper lemmas -/

theorem find?_append_of_left_none {α : Type _} {p : α → Bool} {l₁ l₂ : List α}
    (h : l₁.find? p = none) : (l₁ ++ l₂).find? p = l₂.find? p := by
  simp [List.find?_append, h]

theorem logWalk_none (db : DB) (fuel : Nat) : logWalk db fuel none = [] := by
  cases fuel <;> rfl

theorem logWalk_succ (db : DB) (fuel cid : Nat) :
    logWalk db (fuel + 1) (some cid) =
      match findCommit db cid with
      | none => []
      | some c => c :: logWalk db fuel c.parentId := rfl

theorem logWalk_length_le (db : DB) :
    ∀ (fuel : Nat) (cur : Option Nat), (logWalk db fuel cur).length ≤ fuel := by
  intro fuel
  induction fuel with
  | zero => intro cur; cases cur <;> simp [logWalk]
  | succ n ih =>
    intro cur
    cases cur with
    | none => simp [logWalk_none]
    | some cid =>
      rw [logWalk_succ]
      cases h : findCommit db cid with
      | none => simp
      | some c => simpa using ih c.parentId

theorem findBranch_updateHead (db : DB) (rid : Nat) (name : String)
    (bid cid : Nat) :
    findBranch (updateHead db bid cid) rid name =
      (findBranch db rid name).map
        (fun b => if b.id == bid then { b with headCommitId := some cid }
                  else b) := by
  simp only [findBranch, updateHead, List.find?_map]
  have h1 : ((fun b : BranchRow => b.repoId == rid && b.name == name) ∘
      (fun b => if b.id == bid then { b with headCommitId := some cid }
                else b)) =
      (fun b : BranchRow => b.repoId == rid && b.name == name) := by
    funext b
    by_cases h : b.id == bid <;> simp [Function.comp, h]
  rw [h1]

theorem mem_filesOf {db : DB} {rid : Nat} {f : FileRow} (h : f ∈ filesOf db rid) :
    f.repoId = rid := by
  simp only [filesOf, List.mem_filter, beq_iff_eq] at h
  exact h.2

theorem mkVersions_restore (rid cid : Nat) (fs : List FileRow) :
    ∀ (n : Nat) (oldV : List FileVersionRow),
    (∀ v ∈ oldV, v.id < n) → (∀ f ∈ fs, f.repoId = rid) →
    ((mkVersions rid n fs).map
        (fun v => ({ commitId := cid, fileVersionId := v.id } : CommitFileRow))).filterMap
      (fun cf => ((oldV ++ mkVersions rid n fs).find?
          (fun v => v.id == cf.fileVersionId)).map
        (fun v => ({ repoId := rid, filepath := v.filepath,
                     content := v.content } : FileRow))) = fs := by
  induction fs with
  | nil => intro n oldV _ _; simp [mkVersions]
  | cons f fs ih =>
    intro n oldV hold hrepo
    simp only [mkVersions, List.map_cons, List.filterMap_cons]
    set v0 : FileVersionRow :=
      { id := n, repoId := rid, filepath := f.filepath, content := f.content }
      with hv0
    have heq2 : oldV ++ v0 :: mkVersions rid (n + 1) fs =
        (oldV ++ [v0]) ++ mkVersions rid (n + 1) fs := by
      simp
    simp only [heq2]
    have hfind : (((oldV ++ [v0]) ++ mkVersions rid (n + 1) fs).find?
        (fun v => v.id == n)) = some v0 := by
      rw [List.find?_append, List.find?_append]
      have h1 : oldV.find? (fun v : FileVersionRow => v.id == n) = none := by
        rw [List.find?_eq_none]
        intro v hv
        simp [Nat.ne_of_lt (hold v hv)]
      rw [h1]
      simp [hv0]
    simp only [hfind]
    have hf : ({ repoId := rid, filepath := f.filepath,
                 content := f.content } : FileRow) = f := by
      have := hrepo f (List.mem_cons_self f fs)
      cases f
      simp_all
    have hold2 : ∀ v ∈ oldV ++ [v0], v.id < n + 1 := by
      intro v hv
      rcases List.mem_append.mp hv with h | h
      · exact Nat.lt_succ_of_lt (hold v h)
      · simp at h
        subst h
        exact Nat.lt_succ_self n
    have ihx := ih (n + 1) (oldV ++ [v0]) hold2
      (fun g hg => hrepo g (List.mem_cons_of_mem f hg))
    simp only [Option.map_some']
    rw [ihx, hf]

theorem upsertFile_fresh (base : List FileRow) (r : FileRow)
    (h : ∀ f ∈ base, f.repoId ≠ r.repoId ∨ f.filepath ≠ r.filepath) :
    upsertFile base r = base ++ [r] := by
  have hany : base.any
      (fun f => f.repoId == r.repoId && f.filepath == r.filepath) = false := by
    rw [List.any_eq_false]
    intro f hf
    rcases h f hf with h1 | h1 <;> simp [h1]
  simp [upsertFile, hany]

theorem upsertFiles_all_new :
    ∀ (rows base : List FileRow),
    (∀ f ∈ base, ∀ r ∈ rows, f.repoId ≠ r.repoId ∨ f.filepath ≠ r.filepath) →
    rows.Pairwise (fun a b => a.repoId ≠ b.repoId ∨ a.filepath ≠ b.filepath) →
    upsertFiles base rows = base ++ rows := by
  intro rows
  induction rows with
  | nil => intro base _ _; simp [upsertFiles]
  | cons r rs ih =>
    intro base hfresh hpw
    have h1 : upsertFile base r = base ++ [r] :=
      upsertFile_fresh base r (fun f hf => hfresh f hf r (List.mem_cons_self r rs))
    have hpw' := List.pairwise_cons.mp hpw
    have h2 : ∀ f ∈ base ++ [r], ∀ x ∈ rs,
        f.repoId ≠ x.repoId ∨ f.filepath ≠ x.filepath := by
      intro f hf x hx
      rcases List.mem_append.mp hf with h | h
      · exact hfresh f h x (List.mem_cons_of_mem r hx)
      · simp at h
        subst h
        exact hpw'.1 x hx
    calc upsertFiles base (r :: rs) = upsertFiles (upsertFile base r) rs := rfl
      _ = upsertFiles (base ++ [r]) rs := by rw [h1]
      _ = (base ++ [r]) ++ rs := ih (base ++ [r]) h2 hpw'.2
      _ = base ++ r :: rs := by simp

theorem commit_shape_empty (db : DB)
    (repo ownerId branchName message name email now : String)
    (repoData : RepoRow) (branchData : BranchRow)
    (hr : findRepo db repo ownerId = some repoData)
    (hb : findBranch db repoData.id branchName = some branchData)
    (hE : filesOf db repoData.id = []) :
    commit db repo ownerId branchName message name email now =
      (.ok (generateSha (orDefault message "Update" ++ now)),
       updateHead
         { db with
           commits := db.commits ++
             [commitRowOf db repoData branchData message name email now],
           nextId := db.nextId + 1 }
         branchData.id db.nextId) := by
  simp only [commit, commitF, hr, hb, hE, commitRowOf]
  simp

theorem commit_shape_nonempty (db : DB)
    (repo ownerId branchName message name email now : String)
    (repoData : RepoRow) (branchData : BranchRow)
    (hr : findRepo db repo ownerId = some repoData)
    (hb : findBranch db repoData.id branchName = some branchData)
    (hE : (filesOf db repoData.id).isEmpty = false) :
    commit db repo ownerId branchName message name email now =
      (.ok (generateSha (orDefault message "Update" ++ now)),
       updateHead
         { db with
           commits := db.commits ++
             [commitRowOf db repoData branchData message name email now],
           fileVersions := db.fileVersions ++
             mkVersions repoData.id (db.nextId + 1) (filesOf db repoData.id),
           commitFiles := db.commitFiles ++
             (mkVersions repoData.id (db.nextId + 1)
               (filesOf db repoData.id)).map
               (fun v => { commitId := db.nextId, fileVersionId := v.id }),
           nextId := db.nextId + 1 +
             (mkVersions repoData.id (db.nextId + 1)
               (filesOf db repoData.id)).length }
         branchData.id db.nextId) := by
  simp only [commit, commitF, hr, hb, hE, commitRowOf]
  simp

theorem filesOf_wipe (db : DB) (rid : Nat) :
    filesOf (wipeFiles db rid) rid = [] := by
  simp [filesOf, wipeFiles, List.filter_filter]

theorem checkout_shape_some (db : DB) (repo ownerId ref : String)
    (repoData : RepoRow) (branchData : BranchRow) (head : Nat)
    (hr : findRepo db repo ownerId = some repoData)
    (hb : findBranch db repoData.id ref = some branchData)
    (hh : branchData.headCommitId = some head) :
    checkout db repo ownerId ref =
      (.ok ref,
       if (restoresOf db repoData.id head).isEmpty then wipeFiles db repoData.id
       else { wipeFiles db repoData.id with
              files := upsertFiles (wipeFiles db repoData.id).files
                (restoresOf db repoData.id head) }) := by
  have hres : restoresOf (wipeFiles db repoData.id) repoData.id head =
      restoresOf db repoData.id head := rfl
  simp only [checkout, hr, hb, hh, hres]
  by_cases h2 : (restoresOf db repoData.id head).isEmpty <;> simp [h2]

theorem commit_ok
    (db : DB) (repo ownerId branchName message name email now : String)
    (repoData : RepoRow) (branchData : BranchRow)
    (hr : findRepo db repo ownerId = some repoData)
    (hb : findBranch db repoData.id branchName = some branchData) :
    ∃ db1,
      commit db repo ownerId branchName message name email now =
        (.ok (generateSha (orDefault message "Update" ++ now)), db1) ∧
      db1.repositories = db.repositories ∧
      db1.commits = db.commits ++
        [commitRowOf db repoData branchData message name email now] ∧
      db1.files = db.files ∧
      db.nextId < db1.nextId ∧
      (∀ rid name2, findBranch db1 rid name2 =
        (findBranch db rid name2).map
          (fun b => if b.id == branchData.id
                    then { b with headCommitId := some db.nextId } else b)) := by
  cases hE : (filesOf db repoData.id).isEmpty with
  | true =>
    have hE' : filesOf db repoData.id = [] := by simpa using hE
    refine ⟨_, commit_shape_empty db repo ownerId branchName message name email
      now repoData branchData hr hb hE', rfl, rfl, rfl, Nat.lt_succ_self _, ?_⟩
    intro rid name2
    rw [findBranch_updateHead]
    rfl
  | false =>
    refine ⟨_, commit_shape_nonempty db repo ownerId branchName message name
      email now repoData branchData hr hb hE, rfl, rfl, rfl, ?_, ?_⟩
    · show db.nextId < db.nextId + 1 +
        (mkVersions repoData.id (db.nextId + 1) (filesOf db repoData.id)).length
      omega
    · intro rid name2
      rw [findBranch_updateHead]
      rfl

/-! ## C4 — checkout of a null-head branch empties the working tree -/

/-- C4: for every prior working-tree content, `checkout` of an existing
branch whose `head_commit` is null deletes every working file of the
repository and leaves the working tree empty. -/
theorem checkout_null_head_empties_tree
    (db : DB) (repo ownerId ref : String) (repoData : RepoRow)
    (branchData : BranchRow)
    (hr : findRepo db repo ownerId = some repoData)
    (hb : findBranch db repoData.id ref = some branchData)
    (hh : branchData.headCommitId = none) :
    (checkout db repo ownerId ref).1 = .ok ref ∧
    (checkout db repo ownerId ref).2.files =
      db.files.filter (fun f => !(f.repoId == repoData.id)) ∧
    filesOf (checkout db repo ownerId ref).2 repoData.id = [] := by
  simp only [checkout, hr, hb, hh]
  simp [filesOf, wipeFiles, List.filter_filter]

/-- Witness for C4: a store whose `main` branch has a null head while the
working tree holds one file; checkout wipes it. -/
theorem checkout_null_head_empties_tree_witness :
    (checkout dbMainFile "demo" "u1" "main").1 = .ok "main" ∧
    (checkout dbMainFile "demo" "u1" "main").2.files =
      dbMainFile.files.filter (fun f => !(f.repoId == repo0.id)) ∧
    filesOf (checkout dbMainFile "demo" "u1" "main").2 repo0.id = [] :=
  checkout_null_head_empties_tree dbMainFile "demo" "u1" "main" repo0
    branchMain rfl rfl rfl

/-! ## C5 — createBranch with a missing fromBranch -/

/-- C5 counterexample: with repository `demo` present and
`fromBranch = "nope"` absent, createBranch does NOT fail with NotFound —
it returns ok and inserts a second branch (with null head). -/
theorem createBranch_missing_from_counterexample :
    (createBranch dbMain "demo" "u1" "dev" "nope").1 = .ok "dev" ∧
    (createBranch dbMain "demo" "u1" "dev" "nope").2.branches =
      [branchMain,
       { id := 2, repoId := 0, name := "dev", headCommitId := none }] :=
  ⟨rfl, rfl⟩

/-- C5 amended: when `fromBranch` does not resolve (repository valid,
target name free), createBranch does not fail at all: the missing source
is absorbed by the `sourceBranch?.head_commit_id || null` fallback, so the
call returns ok and creates the branch with a null head. -/
theorem createBranch_missing_from_creates_null_head
    (db : DB) (repo ownerId name fromBranch : String) (repoData : RepoRow)
    (hr : findRepo db repo ownerId = some repoData)
    (hfb : findBranch db repoData.id fromBranch = none)
    (hname : db.branches.any
      (fun b => b.repoId == repoData.id && b.name == name) = false) :
    createBranch db repo ownerId name fromBranch =
      (.ok name,
       { db with
         branches := db.branches ++
           [{ id := db.nextId, repoId := repoData.id, name := name,
              headCommitId := none }],
         nextId := db.nextId + 1 }) := by
  simp only [createBranch, hr, hfb, Option.none_bind, hname]
  simp

/-- Witness for C5's amended statement at the counterexample's input. -/
theorem createBranch_missing_from_creates_null_head_witness :
    createBranch dbMain "demo" "u1" "dev" "nope" =
      (.ok "dev",
       { dbMain with
         branches := dbMain.branches ++
           [{ id := dbMain.nextId, repoId := repo0.id, name := "dev",
              headCommitId := none }],
         nextId := dbMain.nextId + 1 }) :=
  createBranch_missing_from_creates_null_head dbMain "demo" "u1" "dev" "nope"
    repo0 rfl rfl rfl

/-! ## C10 — createBranch with a missing repository -/

/-- C10: when the (repo name, owner_id) pair resolves to no repository,
createBranch dereferences the missing record (`repoData.id` with no null
check): it reports 500 Internal — never NotFound or Conflict — and the
store is unchanged (no branch created). -/
theorem createBranch_missing_repo_internal
    (db : DB) (repo ownerId name fromBranch : String)
    (hr : findRepo db repo ownerId = none) :
    createBranch db repo ownerId name fromBranch =
      (.internal "TypeError: Cannot read properties of null (reading id)",
       db) := by
  simp only [createBranch, hr]

/-- Witness for C10 on the empty store. -/
theorem createBranch_missing_repo_internal_witness :
    createBranch dbEmpty "demo" "u1" "dev" "main" =
      (.internal "TypeError: Cannot read properties of null (reading id)",
       dbEmpty) :=
  createBranch_missing_repo_internal dbEmpty "demo" "u1" "dev" "main" rfl

/-! ## C9 — log's resolution failures -/

/-- C9 counterexample: with no repository, log reports 500 Internal, not
NotFound; with the repository present but branch `nope` absent, it returns
ok with an empty list — so NotFound is never produced and the empty list
is not reserved for an existing branch with a null head. -/
theorem log_notFound_counterexample :
    logOp dbEmpty "demo" "u1" "main" =
      .internal "TypeError: Cannot read properties of null (reading id)" ∧
    logOp dbMain "demo" "u1" "nope" = .ok [] :=
  ⟨rfl, rfl⟩

/-- C9 amended: log reports 500 Internal when the repository does not
resolve (the handler dereferences the missing record); when the repository
exists but the branch does not resolve it returns ok with an empty list —
the same response as for an existing branch whose head is null.  NotFound
is never returned. -/
theorem log_resolution_behaviour
    (db : DB) (repo ownerId branch : String) :
    (findRepo db repo ownerId = none →
      logOp db repo ownerId branch =
        .internal "TypeError: Cannot read properties of null (reading id)") ∧
    (∀ repoData, findRepo db repo ownerId = some repoData →
      findBranch db repoData.id branch = none →
      logOp db repo ownerId branch = .ok []) ∧
    (∀ repoData branchData, findRepo db repo ownerId = some repoData →
      findBranch db repoData.id branch = some branchData →
      branchData.headCommitId = none →
      logOp db repo ownerId branch = .ok []) := by
  refine ⟨fun h => by simp only [logOp, h],
    fun rd h1 h2 => by simp only [logOp, h1, h2],
    fun rd bd h1 h2 h3 => by simp only [logOp, h1, h2, h3]⟩

/-- Witness for C9's amended statement: all three resolution outcomes at
concrete stores. -/
theorem log_resolution_behaviour_witness :
    logOp dbEmpty "demo" "u1" "main" =
      .internal "TypeError: Cannot read properties of null (reading id)" ∧
    logOp dbMain "demo" "u1" "nope" = .ok [] ∧
    logOp dbMain "demo" "u1" "main" = .ok [] :=
  ⟨(log_resolution_behaviour dbEmpty "demo" "u1" "main").1 rfl,
   (log_resolution_behaviour dbMain "demo" "u1" "nope").2.1 repo0 rfl rfl,
   (log_resolution_behaviour dbMain "demo" "u1" "main").2.2 repo0 branchMain
     rfl rfl rfl⟩

/-! ## C2 — no transaction around commit -/

/-- C2 (code bug): the commit handler wraps nothing in a transaction.  On a
store with one working file, if the `file_versions` insert fails the
handler reports Internal but the already-inserted Commit row remains with
zero linked snapshots — observable partial state, no rollback.  (The
branch head is at least left unchanged, since the head update comes
last.) -/
theorem commit_failure_partial_state :
    (commitF .failVersions dbMainFile "demo" "u1" "main" "m1" "alice" "a@x"
      "T1").1 = .internal "insert file_versions failed" ∧
    (commitF .failVersions dbMainFile "demo" "u1" "main" "m1" "alice" "a@x"
      "T1").2.commits =
      [{ id := 2, repoId := 0, branchId := 1, parentId := none,
         sha := "sha:m1T1", message := "m1", authorName := "alice",
         authorEmail := "a@x", createdAt := "T1" }] ∧
    (commitF .failVersions dbMainFile "demo" "u1" "main" "m1" "alice" "a@x"
      "T1").2.commitFiles = [] ∧
    findBranch (commitF .failVersions dbMainFile "demo" "u1" "main" "m1"
      "alice" "a@x" "T1").2 0 "main" = some branchMain :=
  ⟨rfl, rfl, rfl, rfl⟩

/-! ## C8 — depth-capped history walk -/

/-- C8: the history walker follows parent links from the head, newest
first, and stops exactly on a null parent, on a commit id that does not
resolve (silently, with no error), or at the fixed depth cap of 50; on a
lineage of 200 commits it returns exactly the 50 newest entries (ids 199
down to 150) and terminates. -/
theorem log_depth_cap :
    (∀ (db : DB) (fuel : Nat), logWalk db fuel none = []) ∧
    (∀ (db : DB) (fuel cid : Nat), findCommit db cid = none →
      logWalk db (fuel + 1) (some cid) = []) ∧
    (∀ (db : DB) (fuel : Nat) (cur : Option Nat),
      (logWalk db fuel cur).length ≤ fuel) ∧
    (logWalk dbChain 50 (some 199)).length = 50 ∧
    (logWalk dbChain 50 (some 199)).map (fun c => c.id) =
      (List.range 50).map (fun j => 199 - j) ∧
    logOp dbChain "demo" "u1" "main" =
      .ok ((logWalk dbChain 50 (some 199)).map entryOf) := by
  refine ⟨logWalk_none, ?_, logWalk_length_le, by decide, by decide, rfl⟩
  intro db fuel cid h
  rw [logWalk_succ, h]

/-- Witness for C8: each stop condition exercised concretely. -/
theorem log_depth_cap_witness :
    logWalk dbEmpty 3 none = [] ∧
    logWalk dbEmpty 3 (some 7) = [] ∧
    (logWalk dbChain 50 (some 199)).length = 50 :=
  ⟨log_depth_cap.1 dbEmpty 3,
   log_depth_cap.2.1 dbEmpty 2 7 rfl,
   log_depth_cap.2.2.2.1⟩

/-! ## C1, C3, C6, C7 — snapshot engine theorems -/

/-- C1: for every working-tree state, a successful `commit` on a resolved
branch followed by `checkout` of that same branch restores exactly the
committed file set — the repository's working tree afterwards equals, row
for row (same paths, byte-identical content), the tree at the moment of
the commit. -/
theorem commit_checkout_roundtrip
    (db : DB) (repo ownerId branchName message name email now : String)
    (repoData : RepoRow) (branchData : BranchRow)
    (hwf : WF db)
    (hr : findRepo db repo ownerId = some repoData)
    (hb : findBranch db repoData.id branchName = some branchData) :
    ∃ sha db1,
      commit db repo ownerId branchName message name email now =
        (.ok sha, db1) ∧
      (checkout db1 repo ownerId branchName).1 = .ok branchName ∧
      filesOf (checkout db1 repo ownerId branchName).2 repoData.id =
        filesOf db repoData.id := by
  have hfilterOld : db.commitFiles.filter
      (fun cf => cf.commitId == db.nextId) = [] := by
    rw [List.filter_eq_nil_iff]
    intro cf hcf
    simp [Nat.ne_of_lt (hwf.linkCommitIds cf hcf)]
  cases hE : (filesOf db repoData.id).isEmpty with
  | true =>
    have hE' : filesOf db repoData.id = [] := by simpa using hE
    set c := commitRowOf db repoData branchData message name email now with hc
    set dbA : DB :=
      { db with commits := db.commits ++ [c], nextId := db.nextId + 1 }
      with hdbA
    set db1 : DB := updateHead dbA branchData.id db.nextId with hdb1
    have hcommit : commit db repo ownerId branchName message name email now =
        (.ok (generateSha (orDefault message "Update" ++ now)), db1) := by
      rw [commit_shape_empty db repo ownerId branchName message name email now
        repoData branchData hr hb hE']
    have hr1 : findRepo db1 repo ownerId = some repoData := hr
    have hb1 : findBranch db1 repoData.id branchName =
        some { branchData with headCommitId := some db.nextId } := by
      rw [hdb1, findBranch_updateHead]
      rw [show findBranch dbA repoData.id branchName = some branchData from hb]
      simp
    have hresE : restoresOf db1 repoData.id db.nextId = [] := by
      show (db.commitFiles.filter
        (fun cf => cf.commitId == db.nextId)).filterMap _ = []
      rw [hfilterOld]
      rfl
    have hchk : checkout db1 repo ownerId branchName =
        (.ok branchName, wipeFiles db1 repoData.id) := by
      rw [checkout_shape_some db1 repo ownerId branchName repoData _ db.nextId
        hr1 hb1 rfl]
      rw [hresE]
      simp
    refine ⟨_, db1, hcommit, ?_, ?_⟩
    · rw [hchk]
    · rw [hchk]
      show filesOf (wipeFiles db1 repoData.id) repoData.id =
        filesOf db repoData.id
      rw [filesOf_wipe, hE']
  | false =>
    have hne : filesOf db repoData.id ≠ [] := by simpa using hE
    set fs := filesOf db repoData.id with hfs
    have hrepo : ∀ f ∈ fs, f.repoId = repoData.id := fun f hf => mem_filesOf hf
    set c := commitRowOf db repoData branchData message name email now with hc
    set versions := mkVersions repoData.id (db.nextId + 1) fs with hv
    set links := versions.map
      (fun v => ({ commitId := db.nextId, fileVersionId := v.id } :
        CommitFileRow)) with hl
    set db3 : DB :=
      { db with
        commits := db.commits ++ [c],
        fileVersions := db.fileVersions ++ versions,
        commitFiles := db.commitFiles ++ links,
        nextId := db.nextId + 1 + versions.length }
      with hdb3
    set db1 : DB := updateHead db3 branchData.id db.nextId with hdb1
    have hcommit : commit db repo ownerId branchName message name email now =
        (.ok (generateSha (orDefault message "Update" ++ now)), db1) := by
      rw [commit_shape_nonempty db repo ownerId branchName message name email
        now repoData branchData hr hb hE]
    have hr1 : findRepo db1 repo ownerId = some repoData := hr
    have hb1 : findBranch db1 repoData.id branchName =
        some { branchData with headCommitId := some db.nextId } := by
      rw [hdb1, findBranch_updateHead]
      rw [show findBranch db3 repoData.id branchName = some branchData from hb]
      simp
    have hfilterLinks : links.filter (fun cf => cf.commitId == db.nextId) =
        links := by
      rw [List.filter_eq_self]
      intro cf hcf
      rw [hl] at hcf
      obtain ⟨v, hv', rfl⟩ := List.mem_map.mp hcf
      simp
    have hold : ∀ v ∈ db.fileVersions, v.id < db.nextId + 1 :=
      fun v hv => Nat.lt_succ_of_lt (hwf.versionIds v hv)
    have hres : restoresOf db1 repoData.id db.nextId = fs := by
      show ((db.commitFiles ++ links).filter
          (fun cf => cf.commitId == db.nextId)).filterMap
        (fun cf => ((db.fileVersions ++ versions).find?
            (fun v => v.id == cf.fileVersionId)).map
          (fun v => ({ repoId := repoData.id, filepath := v.filepath,
                       content := v.content } : FileRow))) = fs
      rw [List.filter_append, hfilterOld, List.nil_append, hfilterLinks]
      exact mkVersions_restore repoData.id db.nextId fs (db.nextId + 1)
        db.fileVersions hold hrepo
    have hfsE : fs.isEmpty = false := by simpa using hne
    have hchk : checkout db1 repo ownerId branchName =
        (.ok branchName,
         { wipeFiles db1 repoData.id with
           files := upsertFiles (wipeFiles db1 repoData.id).files fs }) := by
      rw [checkout_shape_some db1 repo ownerId branchName repoData _ db.nextId
        hr1 hb1 rfl]
      rw [hres, hfsE]
      simp
    have hbase : ∀ f ∈ (wipeFiles db1 repoData.id).files, ∀ r ∈ fs,
        f.repoId ≠ r.repoId ∨ f.filepath ≠ r.filepath := by
      intro f hf r hr'
      left
      have h1 : f.repoId ≠ repoData.id := by
        simp only [wipeFiles, List.mem_filter] at hf
        simpa using hf.2
      rw [hrepo r hr']
      exact h1
    have hpw : fs.Pairwise
        (fun a b => a.repoId ≠ b.repoId ∨ a.filepath ≠ b.filepath) :=
      List.Pairwise.sublist (List.filter_sublist _) hwf.fileKeys
    have hfinal : filesOf
        { wipeFiles db1 repoData.id with
          files := upsertFiles (wipeFiles db1 repoData.id).files fs }
        repoData.id = fs := by
      rw [show upsertFiles (wipeFiles db1 repoData.id).files fs =
        (wipeFiles db1 repoData.id).files ++ fs from
        upsertFiles_all_new fs _ hbase hpw]
      show ((wipeFiles db1 repoData.id).files ++ fs).filter
        (fun f => f.repoId == repoData.id) = fs
      rw [List.filter_append]
      have h1 : (wipeFiles db1 repoData.id).files.filter
          (fun f => f.repoId == repoData.id) = [] := by
        simp [wipeFiles, List.filter_filter]
      have h2 : fs.filter (fun f => f.repoId == repoData.id) = fs := by
        rw [List.filter_eq_self]
        intro f hf
        simpa using hrepo f hf
      rw [h1, h2, List.nil_append]
    refine ⟨_, db1, hcommit, ?_, ?_⟩
    · rw [hchk]
    · rw [hchk]
      exact hfinal

/-- C6: after `createBranch(B2, from=B1)` taken while B1 heads commit c1,
a commit on B1 moves only B1's head (to the new commit id `db1.nextId`);
B2 still heads c1, because the head value was copied at creation time. -/
theorem branch_isolation
    (db : DB) (repo ownerId newName fromName message name email now : String)
    (repoData : RepoRow) (b1 : BranchRow) (c1 : Nat)
    (hwf : WF db)
    (hr : findRepo db repo ownerId = some repoData)
    (hb1 : findBranch db repoData.id fromName = some b1)
    (hhead : b1.headCommitId = some c1)
    (hnew : db.branches.any
      (fun b => b.repoId == repoData.id && b.name == newName) = false) :
    ∃ db1 sha db2,
      createBranch db repo ownerId newName fromName = (.ok newName, db1) ∧
      commit db1 repo ownerId fromName message name email now =
        (.ok sha, db2) ∧
      findBranch db2 repoData.id newName =
        some { id := db.nextId, repoId := repoData.id, name := newName,
               headCommitId := some c1 } ∧
      findBranch db2 repoData.id fromName =
        some { b1 with headCommitId := some db1.nextId } := by
  set B2 : BranchRow :=
    { id := db.nextId, repoId := repoData.id, name := newName,
      headCommitId := some c1 } with hB2
  set dbB : DB :=
    { db with branches := db.branches ++ [B2], nextId := db.nextId + 1 }
    with hdbB
  have hcb : createBranch db repo ownerId newName fromName =
      (.ok newName, dbB) := by
    simp only [createBranch, hr, hb1, Option.some_bind, hhead, hnew]
    simp
  have hrB : findRepo dbB repo ownerId = some repoData := hr
  have hfromB : findBranch dbB repoData.id fromName = some b1 := by
    show (db.branches ++ [B2]).find? _ = some b1
    rw [List.find?_append]
    rw [show db.branches.find?
      (fun b => b.repoId == repoData.id && b.name == fromName) = some b1
      from hb1]
    rfl
  obtain ⟨db2, hc2, hrep2, hcom2, hfil2, hlt2, hbr2⟩ :=
    commit_ok dbB repo ownerId fromName message name email now repoData b1
      hrB hfromB
  have hnewB : findBranch dbB repoData.id newName = some B2 := by
    show (db.branches ++ [B2]).find? _ = some B2
    rw [List.find?_append]
    have h0 : db.branches.find?
        (fun b => b.repoId == repoData.id && b.name == newName) = none := by
      rw [List.find?_eq_none]
      intro b hbm
      have := List.any_eq_false.mp hnew b hbm
      simpa using this
    rw [h0]
    simp [hB2]
  have hid : B2.id ≠ b1.id := by
    have := hwf.branchIds b1 (List.mem_of_find?_eq_some hb1)
    rw [hB2]
    simp only []
    omega
  refine ⟨dbB, _, db2, hcb, hc2, ?_, ?_⟩
  · rw [hbr2 repoData.id newName, hnewB]
    simp [hid]
  · rw [hbr2 repoData.id fromName, hfromB]
    simp

/-- C7: two commits in sequence on a branch with no prior commits produce
rows c1 then c2 with `c2.parent = c1.id` (and `c1.parent = null`), and
`log` on that branch returns exactly `[c2, c1]`, newest first. -/
theorem parent_chain_log
    (db : DB) (repo ownerId bn m1 a1 e1 t1 m2 a2 e2 t2 : String)
    (repoData : RepoRow) (branchData : BranchRow)
    (hwf : WF db)
    (hr : findRepo db repo ownerId = some repoData)
    (hb : findBranch db repoData.id bn = some branchData)
    (hh : branchData.headCommitId = none) :
    ∃ (sha1 : String) (db1 : DB) (sha2 : String) (db2 : DB)
      (c1 c2 : CommitRow),
      commit db repo ownerId bn m1 a1 e1 t1 = (.ok sha1, db1) ∧
      commit db1 repo ownerId bn m2 a2 e2 t2 = (.ok sha2, db2) ∧
      c1.id = db.nextId ∧ c2.id = db1.nextId ∧
      c1.parentId = none ∧ c2.parentId = some c1.id ∧
      db2.commits = (db.commits ++ [c1]) ++ [c2] ∧
      logOp db2 repo ownerId bn = .ok [entryOf c2, entryOf c1] := by
  obtain ⟨db1, hc1, hrep1, hcom1, hfil1, hlt1, hbr1⟩ :=
    commit_ok db repo ownerId bn m1 a1 e1 t1 repoData branchData hr hb
  have hr1 : findRepo db1 repo ownerId = some repoData := by
    simp only [findRepo] at hr ⊢
    rw [hrep1]
    exact hr
  set bd1 : BranchRow := { branchData with headCommitId := some db.nextId }
    with hbd1
  have hb1 : findBranch db1 repoData.id bn = some bd1 := by
    rw [hbr1 repoData.id bn, hb]
    simp [hbd1]
  obtain ⟨db2, hc2, hrep2, hcom2, hfil2, hlt2, hbr2⟩ :=
    commit_ok db1 repo ownerId bn m2 a2 e2 t2 repoData bd1 hr1 hb1
  set c1 : CommitRow := commitRowOf db repoData branchData m1 a1 e1 t1 with hcc1
  set c2 : CommitRow := commitRowOf db1 repoData bd1 m2 a2 e2 t2 with hcc2
  have hr2 : findRepo db2 repo ownerId = some repoData := by
    simp only [findRepo] at hr1 ⊢
    rw [hrep2]
    exact hr1
  have hb2 : findBranch db2 repoData.id bn =
      some { bd1 with headCommitId := some db1.nextId } := by
    rw [hbr2 repoData.id bn, hb1]
    simp
  have hcommits2 : db2.commits = (db.commits ++ [c1]) ++ [c2] := by
    rw [hcom2, hcom1]
  have hnone1 : db.commits.find? (fun c => c.id == db1.nextId) = none := by
    rw [List.find?_eq_none]
    intro c hc
    have := hwf.commitIds c hc
    simp only [beq_iff_eq]
    omega
  have hnone0 : db.commits.find? (fun c => c.id == db.nextId) = none := by
    rw [List.find?_eq_none]
    intro c hc
    have := hwf.commitIds c hc
    simp only [beq_iff_eq]
    omega
  have hfc2 : findCommit db2 db1.nextId = some c2 := by
    show db2.commits.find? (fun c => c.id == db1.nextId) = some c2
    rw [hcommits2, List.find?_append, List.find?_append, hnone1]
    have h1 : [c1].find? (fun c => c.id == db1.nextId) = none := by
      have hi1 : c1.id = db.nextId := rfl
      simp [hi1]
      omega
    rw [h1]
    have hi2 : c2.id = db1.nextId := rfl
    simp [hi2]
  have hfc1 : findCommit db2 db.nextId = some c1 := by
    show db2.commits.find? (fun c => c.id == db.nextId) = some c1
    rw [hcommits2, List.find?_append, List.find?_append, hnone0]
    have hi1 : c1.id = db.nextId := rfl
    simp [hi1]
  have hwalk : logWalk db2 50 (some db1.nextId) = [c2, c1] := by
    rw [show (50 : Nat) = 49 + 1 from rfl, logWalk_succ]
    simp only [hfc2]
    rw [show c2.parentId = some db.nextId from rfl]
    rw [show (49 : Nat) = 48 + 1 from rfl, logWalk_succ]
    simp only [hfc1]
    rw [show c1.parentId = none from hh, logWalk_none]
  have hlog : logOp db2 repo ownerId bn = .ok [entryOf c2, entryOf c1] := by
    simp only [logOp, hr2, hb2]
    rw [hwalk]
    rfl
  exact ⟨_, db1, _, db2, c1, c2, hc1, hc2, rfl, rfl, hh, rfl, hcommits2, hlog⟩

/-- C3: committing an empty working tree still creates the commit (row
appended, zero linked snapshots), advances the branch head to it, and a
subsequent checkout of the branch yields an empty working tree. -/
theorem commit_empty_tree
    (db : DB) (repo ownerId branchName message name email now : String)
    (repoData : RepoRow) (branchData : BranchRow)
    (hwf : WF db)
    (hr : findRepo db repo ownerId = some repoData)
    (hb : findBranch db repoData.id branchName = some branchData)
    (hE : filesOf db repoData.id = []) :
    ∃ (sha : String) (db1 : DB),
      commit db repo ownerId branchName message name email now =
        (.ok sha, db1) ∧
      db1.commits = db.commits ++
        [commitRowOf db repoData branchData message name email now] ∧
      db1.commitFiles.filter (fun cf => cf.commitId == db.nextId) = [] ∧
      findBranch db1 repoData.id branchName =
        some { branchData with headCommitId := some db.nextId } ∧
      (checkout db1 repo ownerId branchName).1 = .ok branchName ∧
      filesOf (checkout db1 repo ownerId branchName).2 repoData.id = [] := by
  have hfilterOld : db.commitFiles.filter
      (fun cf => cf.commitId == db.nextId) = [] := by
    rw [List.filter_eq_nil_iff]
    intro cf hcf
    simp [Nat.ne_of_lt (hwf.linkCommitIds cf hcf)]
  set c := commitRowOf db repoData branchData message name email now with hc
  set dbA : DB :=
    { db with commits := db.commits ++ [c], nextId := db.nextId + 1 }
    with hdbA
  set db1 : DB := updateHead dbA branchData.id db.nextId with hdb1
  have hcommit : commit db repo ownerId branchName message name email now =
      (.ok (generateSha (orDefault message "Update" ++ now)), db1) := by
    rw [commit_shape_empty db repo ownerId branchName message name email now
      repoData branchData hr hb hE]
  have hr1 : findRepo db1 repo ownerId = some repoData := hr
  have hb1 : findBranch db1 repoData.id branchName =
      some { branchData with headCommitId := some db.nextId } := by
    rw [hdb1, findBranch_updateHead]
    rw [show findBranch dbA repoData.id branchName = some branchData from hb]
    simp
  have hresE : restoresOf db1 repoData.id db.nextId = [] := by
    show (db.commitFiles.filter
      (fun cf => cf.commitId == db.nextId)).filterMap _ = []
    rw [hfilterOld]
    rfl
  have hchk : checkout db1 repo ownerId branchName =
      (.ok branchName, wipeFiles db1 repoData.id) := by
    rw [checkout_shape_some db1 repo ownerId branchName repoData _ db.nextId
      hr1 hb1 rfl]
    rw [hresE]
    simp
  refine ⟨_, db1, hcommit, rfl, hfilterOld, hb1, by rw [hchk], ?_⟩
  rw [hchk]
  show filesOf (wipeFiles db1 repoData.id) repoData.id = []
  rw [filesOf_wipe]

/-- `dbMain` satisfies the store invariants. -/
theorem wf_dbMain : WF dbMain :=
  ⟨by decide, by decide, by decide, by decide, by decide⟩

/-- `dbMainFile` satisfies the store invariants. -/
theorem wf_dbMainFile : WF dbMainFile :=
  ⟨by decide, by decide, by decide, by decide, by decide⟩

/-- `dbMainC` satisfies the store invariants. -/
theorem wf_dbMainC : WF dbMainC :=
  ⟨by decide, by decide, by decide, by decide, by decide⟩

/-- Witness for C1 at a concrete store with one working file. -/
theorem commit_checkout_roundtrip_witness :
    ∃ sha db1,
      commit dbMainFile "demo" "u1" "main" "m1" "alice" "a@x" "T1" =
        (.ok sha, db1) ∧
      (checkout db1 "demo" "u1" "main").1 = .ok "main" ∧
      filesOf (checkout db1 "demo" "u1" "main").2 repo0.id =
        filesOf dbMainFile repo0.id :=
  commit_checkout_roundtrip dbMainFile "demo" "u1" "main" "m1" "alice" "a@x"
    "T1" repo0 branchMain wf_dbMainFile rfl rfl

/-- Witness for C3 at a concrete store with an empty working tree. -/
theorem commit_empty_tree_witness :
    ∃ (sha : String) (db1 : DB),
      commit dbMain "demo" "u1" "main" "m0" "al" "ae" "T0" = (.ok sha, db1) ∧
      db1.commits = dbMain.commits ++
        [commitRowOf dbMain repo0 branchMain "m0" "al" "ae" "T0"] ∧
      db1.commitFiles.filter (fun cf => cf.commitId == dbMain.nextId) = [] ∧
      findBranch db1 repo0.id "main" =
        some { branchMain with headCommitId := some dbMain.nextId } ∧
      (checkout db1 "demo" "u1" "main").1 = .ok "main" ∧
      filesOf (checkout db1 "demo" "u1" "main").2 repo0.id = [] :=
  commit_empty_tree dbMain "demo" "u1" "main" "m0" "al" "ae" "T0" repo0
    branchMain wf_dbMain rfl rfl rfl

/-- Witness for C6: branch `dev` created off `main` (head = commit 7); a
commit on `main` leaves the head of `dev` at 7. -/
theorem branch_isolation_witness :
    ∃ db1 sha db2,
      createBranch dbMainC "demo" "u1" "dev" "main" = (.ok "dev", db1) ∧
      commit db1 "demo" "u1" "main" "m" "a" "e" "t" = (.ok sha, db2) ∧
      findBranch db2 repo0.id "dev" =
        some { id := dbMainC.nextId, repoId := repo0.id, name := "dev",
               headCommitId := some 7 } ∧
      findBranch db2 repo0.id "main" =
        some { id := 1, repoId := 0, name := "main",
               headCommitId := some db1.nextId } :=
  branch_isolation dbMainC "demo" "u1" "dev" "main" "m" "a" "e" "t" repo0
    { id := 1, repoId := 0, name := "main", headCommitId := some 7 } 7
    wf_dbMainC rfl rfl rfl rfl

/-- Witness for C7 at a concrete store (fresh `main`, one working file). -/
theorem parent_chain_log_witness :
    ∃ (sha1 : String) (db1 : DB) (sha2 : String) (db2 : DB)
      (c1 c2 : CommitRow),
      commit dbMainFile "demo" "u1" "main" "m1" "a1" "e1" "t1" =
        (.ok sha1, db1) ∧
      commit db1 "demo" "u1" "main" "m2" "a2" "e2" "t2" = (.ok sha2, db2) ∧
      c1.id = dbMainFile.nextId ∧ c2.id = db1.nextId ∧
      c1.parentId = none ∧ c2.parentId = some c1.id ∧
      db2.commits = (dbMainFile.commits ++ [c1]) ++ [c2] ∧
      logOp db2 "demo" "u1" "main" = .ok [entryOf c2, entryOf c1] :=
  parent_chain_log dbMainFile "demo" "u1" "main" "m1" "a1" "e1" "t1" "m2"
    "a2" "e2" "t2" repo0 branchMain wf_dbMainFile rfl rfl rfl
